import Mathlib

/-!
Shallow embedding of `mandelbrot_set` from `src/mandelbrotset.py`.

The Python function builds a height×width grid of complex samples with
`np.linspace` and iterates `z <- z*z + c` under a boolean `mask`, recording
in `div_time` the loop index at which a point's magnitude first exceeds 2,
with a global early exit once no point is still masked.

Numbers are embedded as exact rationals (the code uses double precision;
the algorithmic claims are about the exact recurrence).  The escape test
`np.abs(z) > 2.0` is embedded as `absSq z > 4`, which for exact arithmetic
holds for the same inputs since both sides of `|z| > 2` are nonnegative;
the spec itself states the squared-magnitude comparison is an equivalent
formulation producing identical escape indices.
-/

/-- A complex number with rational components, standing for a numpy
complex value `re + im*1j`. -/
structure Cx where
  re : ℚ
  im : ℚ
deriving DecidableEq, Repr

/-- Complex addition. -/
def cAdd (a b : Cx) : Cx := ⟨a.re + b.re, a.im + b.im⟩

/-- Complex multiplication. -/
def cMul (a b : Cx) : Cx :=
  ⟨a.re * b.re - a.im * b.im, a.re * b.im + a.im * b.re⟩

/-- Complex conjugate. -/
def cConj (a : Cx) : Cx := ⟨a.re, -a.im⟩

/-- Squared magnitude `re^2 + im^2`; the code's escape test `abs z > 2.0`
is `4 < absSq z` in exact arithmetic. -/
def absSq (a : Cx) : ℚ := a.re * a.re + a.im * a.im

/-- `np.linspace a b n` (endpoint included): the sample at index `i` out of
`n`.  For `n = 1` numpy returns the single value `a`; for `n ≥ 2` the
samples are `a + i*(b-a)/(n-1)` (the forced exact endpoint `b` coincides
with this formula in exact arithmetic). -/
def linspace (a b : ℚ) (n : ℕ) (i : Fin n) : ℚ :=
  if n ≤ 1 then a else a + (i.val : ℚ) * (b - a) / ((n : ℚ) - 1)

/-- The per-cell working state: the code's three arrays `z`, `div_time`
and `mask`, read at one cell. -/
structure Cell where
  z : Cx
  div_time : ℕ
  mask : Bool
deriving DecidableEq, Repr

/-- Initial cell: `z = np.zeros_like(c)`, `div_time = np.zeros(...)`,
`mask = np.full(..., True)`. -/
def initCell : Cell := ⟨⟨0, 0⟩, 0, true⟩

/-- One loop body of the Python `for i in range(max_iter)` at one cell:
`z[mask] = z[mask]**2 + c[mask]` updates only masked cells;
`diverged = np.greater(np.abs(z), 2.0, out=..., where=mask)` is true on a
cell iff it is masked and its updated `z` exceeds the threshold;
`div_time[diverged] = i` and `mask[diverged] = False` record the escape.
Unmasked cells are untouched by every one of these statements. -/
def cellStep (c : Cx) (i : ℕ) (s : Cell) : Cell :=
  if s.mask then
    let z2 := cAdd (cMul s.z s.z) c
    if 4 < absSq z2 then ⟨z2, i, false⟩ else ⟨z2, s.div_time, true⟩
  else s

/-- The vectorized loop body applied to the whole grid: every numpy
statement in the body acts cellwise. -/
def gridStep {w h : ℕ} (c : Fin h → Fin w → Cx) (i : ℕ)
    (s : Fin h → Fin w → Cell) : Fin h → Fin w → Cell :=
  fun r j => cellStep (c r j) i (s r j)

/-- `mask.any()`: some cell is still masked. -/
def anyActive {w h : ℕ} (s : Fin h → Fin w → Cell) : Bool :=
  decide (∃ r : Fin h, ∃ j : Fin w, (s r j).mask = true)

/-- The main loop with the code's early exit
`if not mask.any(): break`, run for `fuel` remaining iterations starting
at loop index `i`. -/
def run {w h : ℕ} (c : Fin h → Fin w → Cx) (i fuel : ℕ)
    (s : Fin h → Fin w → Cell) : Fin h → Fin w → Cell :=
  match fuel with
  | 0 => s
  | Nat.succ f =>
    let s2 := gridStep c i s
    if anyActive s2 then run c (i + 1) f s2 else s2

/-- The same loop without the early exit: all `fuel` iterations run. -/
def runNB {w h : ℕ} (c : Fin h → Fin w → Cx) (i fuel : ℕ)
    (s : Fin h → Fin w → Cell) : Fin h → Fin w → Cell :=
  match fuel with
  | 0 => s
  | Nat.succ f => runNB c (i + 1) f (gridStep c i s)

/-- The sample grid `c = r1 + r2[:,None] * 1j`: row `r`, column `j` holds
`linspace xmin xmax width j + linspace ymin ymax height r * 1j`. -/
def sampleGrid (xmin xmax ymin ymax : ℚ) (w h : ℕ) :
    Fin h → Fin w → Cx :=
  fun r j => ⟨linspace xmin xmax w j, linspace ymin ymax h r⟩

/-- `mandelbrot_set(xmin, xmax, ymin, ymax, width, height, max_iter)`:
returns the `div_time` grid after the masked iteration loop. -/
def mandelbrot_set (xmin xmax ymin ymax : ℚ) (w h max_iter : ℕ) :
    Fin h → Fin w → ℕ :=
  fun r j =>
    (run (sampleGrid xmin xmax ymin ymax w h) 0 max_iter
      (fun _ _ => initCell) r j).div_time

/-- The evaluator with the early-exit line removed: always runs all
`max_iter` iterations.  Used to state that the break is output-preserving. -/
def mandelbrot_set_noBreak (xmin xmax ymin ymax : ℚ) (w h max_iter : ℕ) :
    Fin h → Fin w → ℕ :=
  fun r j =>
    (runNB (sampleGrid xmin xmax ymin ymax w h) 0 max_iter
      (fun _ _ => initCell) r j).div_time

/-- The scalar orbit `z_0 = 0`, `z_(k+1) = z_k^2 + c`:  `orbit c k` is the
value of `z` at a cell sampling `c` after `k` updates. -/
def orbit (c : Cx) (k : ℕ) : Cx :=
  match k with
  | 0 => ⟨0, 0⟩
  | Nat.succ n => cAdd (cMul (orbit c n) (orbit c n)) c

/-- The first loop index `k ≥ i` within `fuel` further iterations whose
post-update orbit value exceeds the threshold, if any. -/
def firstEsc (c : Cx) (i fuel : ℕ) : Option ℕ :=
  match fuel with
  | 0 => none
  | Nat.succ f =>
    if 4 < absSq (orbit c (i + 1)) then some i else firstEsc c (i + 1) f

/-- The scalar value the evaluator records for a point `c` under cap `m`:
the first escaping loop index, and the array initial value 0 when the
orbit never escapes within `m` updates. -/
def escapeVal (c : Cx) (m : ℕ) : ℕ := (firstEsc c 0 m).getD 0

/-- The loop restricted to a single cell (no early exit): iterating
`cellStep`. -/
def cellRun (c : Cx) (i fuel : ℕ) (s : Cell) : Cell :=
  match fuel with
  | 0 => s
  | Nat.succ f => cellRun c (i + 1) f (cellStep c i s)

/-! ## Basic lemmas about the loop -/

theorem cellStep_inactive (c : Cx) (i : ℕ) (s : Cell) (hm : s.mask = false) :
    cellStep c i s = s := by
  simp [cellStep, hm]

theorem cellRun_inactive (c : Cx) (fuel : ℕ) :
    ∀ (i : ℕ) (s : Cell), s.mask = false → cellRun c i fuel s = s := by
  induction fuel with
  | zero => intro i s _; rfl
  | succ f ih =>
    intro i s hm
    show cellRun c (i + 1) f (cellStep c i s) = s
    rw [cellStep_inactive c i s hm]
    exact ih (i + 1) s hm

theorem runNB_apply {w h : ℕ} (c : Fin h → Fin w → Cx) (fuel : ℕ) :
    ∀ (i : ℕ) (s : Fin h → Fin w → Cell) (r : Fin h) (j : Fin w),
      runNB c i fuel s r j = cellRun (c r j) i fuel (s r j) := by
  induction fuel with
  | zero => intro i s r j; rfl
  | succ f ih =>
    intro i s r j
    show runNB c (i + 1) f (gridStep c i s) r j = _
    rw [ih (i + 1) (gridStep c i s) r j]
    rfl

theorem anyActive_false {w h : ℕ} (s : Fin h → Fin w → Cell)
    (hA : anyActive s = false) (r : Fin h) (j : Fin w) : (s r j).mask = false := by
  simp only [anyActive, decide_eq_false_iff_not, not_exists] at hA
  exact Bool.eq_false_iff.mpr (hA r j)

theorem gridStep_of_no_active {w h : ℕ} (c : Fin h → Fin w → Cx) (i : ℕ)
    (s : Fin h → Fin w → Cell) (hA : anyActive s = false) : gridStep c i s = s := by
  funext r j
  exact cellStep_inactive (c r j) i (s r j) (anyActive_false s hA r j)

theorem runNB_of_no_active {w h : ℕ} (c : Fin h → Fin w → Cx) (fuel : ℕ) :
    ∀ (i : ℕ) (s : Fin h → Fin w → Cell), anyActive s = false →
      runNB c i fuel s = s := by
  induction fuel with
  | zero => intro i s _; rfl
  | succ f ih =>
    intro i s hA
    show runNB c (i + 1) f (gridStep c i s) = s
    rw [gridStep_of_no_active c i s hA]
    exact ih (i + 1) s hA

theorem run_eq_runNB {w h : ℕ} (c : Fin h → Fin w → Cx) (fuel : ℕ) :
    ∀ (i : ℕ) (s : Fin h → Fin w → Cell), run c i fuel s = runNB c i fuel s := by
  induction fuel with
  | zero => intro i s; rfl
  | succ f ih =>
    intro i s
    show (if anyActive (gridStep c i s) then run c (i + 1) f (gridStep c i s)
      else gridStep c i s) = runNB c (i + 1) f (gridStep c i s)
    by_cases hA : anyActive (gridStep c i s) = true
    · rw [if_pos hA]; exact ih (i + 1) (gridStep c i s)
    · rw [if_neg hA]
      exact (runNB_of_no_active c f (i + 1) (gridStep c i s)
        (Bool.eq_false_iff.mpr hA)).symm

/-! ## Scalar characterization of the loop -/

theorem cellRun_active (c : Cx) (d : ℕ) (fuel : ℕ) :
    ∀ i : ℕ, cellRun c i fuel ⟨orbit c i, d, true⟩ =
      (match firstEsc c i fuel with
        | some k => ⟨orbit c (k + 1), k, false⟩
        | none => ⟨orbit c (i + fuel), d, true⟩) := by
  induction fuel with
  | zero => intro i; rfl
  | succ f ih =>
    intro i
    show cellRun c (i + 1) f (cellStep c i ⟨orbit c i, d, true⟩) = _
    have hstep : cellStep c i ⟨orbit c i, d, true⟩ =
        (if 4 < absSq (orbit c (i + 1)) then ⟨orbit c (i + 1), i, false⟩
          else ⟨orbit c (i + 1), d, true⟩) := by
      simp only [cellStep]
      rfl
    by_cases hesc : 4 < absSq (orbit c (i + 1))
    · rw [hstep, if_pos hesc]
      rw [cellRun_inactive c f (i + 1) _ rfl]
      show _ = (match firstEsc c i (Nat.succ f) with
        | some k => (⟨orbit c (k + 1), k, false⟩ : Cell)
        | none => ⟨orbit c (i + Nat.succ f), d, true⟩)
      have : firstEsc c i (Nat.succ f) = some i := by
        show (if 4 < absSq (orbit c (i + 1)) then some i else firstEsc c (i + 1) f) = some i
        rw [if_pos hesc]
      rw [this]
    · rw [hstep, if_neg hesc]
      rw [ih (i + 1)]
      have : firstEsc c i (Nat.succ f) = firstEsc c (i + 1) f := by
        show (if 4 < absSq (orbit c (i + 1)) then some i else firstEsc c (i + 1) f) = _
        rw [if_neg hesc]
      rw [this]
      cases hfe : firstEsc c (i + 1) f with
      | some k => rfl
      | none =>
        have harith : i + 1 + f = i + Nat.succ f := by omega
        rw [harith]

theorem mandelbrot_set_apply (xmin xmax ymin ymax : ℚ) (w h m : ℕ)
    (r : Fin h) (j : Fin w) :
    mandelbrot_set xmin xmax ymin ymax w h m r j =
      escapeVal (sampleGrid xmin xmax ymin ymax w h r j) m := by
  show (run (sampleGrid xmin xmax ymin ymax w h) 0 m (fun _ _ => initCell) r j).div_time = _
  rw [run_eq_runNB, runNB_apply]
  show (cellRun (sampleGrid xmin xmax ymin ymax w h r j) 0 m
    ⟨orbit (sampleGrid xmin xmax ymin ymax w h r j) 0, 0, true⟩).div_time = _
  rw [cellRun_active]
  cases hfe : firstEsc (sampleGrid xmin xmax ymin ymax w h r j) 0 m with
  | some k => simp [escapeVal, hfe]
  | none => simp [escapeVal, hfe]

theorem mandelbrot_set_noBreak_apply (xmin xmax ymin ymax : ℚ) (w h m : ℕ)
    (r : Fin h) (j : Fin w) :
    mandelbrot_set_noBreak xmin xmax ymin ymax w h m r j =
      escapeVal (sampleGrid xmin xmax ymin ymax w h r j) m := by
  show (runNB (sampleGrid xmin xmax ymin ymax w h) 0 m (fun _ _ => initCell) r j).div_time = _
  rw [runNB_apply]
  show (cellRun (sampleGrid xmin xmax ymin ymax w h r j) 0 m
    ⟨orbit (sampleGrid xmin xmax ymin ymax w h r j) 0, 0, true⟩).div_time = _
  rw [cellRun_active]
  cases hfe : firstEsc (sampleGrid xmin xmax ymin ymax w h r j) 0 m with
  | some k => simp [escapeVal, hfe]
  | none => simp [escapeVal, hfe]

/-! ## Lemmas about the first escape index -/

theorem firstEsc_none (c : Cx) (fuel : ℕ) :
    ∀ i : ℕ, (∀ k, i ≤ k → k < i + fuel → ¬ (4 < absSq (orbit c (k + 1)))) →
      firstEsc c i fuel = none := by
  induction fuel with
  | zero => intro i _; rfl
  | succ f ih =>
    intro i hno
    show (if 4 < absSq (orbit c (i + 1)) then some i else firstEsc c (i + 1) f) = none
    rw [if_neg (hno i (le_refl i) (by omega))]
    exact ih (i + 1) (fun k hk1 hk2 => hno k (by omega) (by omega))

theorem firstEsc_some (c : Cx) (fuel : ℕ) :
    ∀ i k : ℕ, i ≤ k → k < i + fuel → 4 < absSq (orbit c (k + 1)) →
      (∀ l, i ≤ l → l < k → ¬ (4 < absSq (orbit c (l + 1)))) →
      firstEsc c i fuel = some k := by
  induction fuel with
  | zero => intro i k h1 h2 _ _; omega
  | succ f ih =>
    intro i k h1 h2 hesc hmin
    show (if 4 < absSq (orbit c (i + 1)) then some i else firstEsc c (i + 1) f) = some k
    by_cases hi : 4 < absSq (orbit c (i + 1))
    · rw [if_pos hi]
      have : i = k := by
        by_contra hne
        exact hmin i (le_refl i) (by omega) hi
      rw [this]
    · rw [if_neg hi]
      have hik : i ≠ k := fun he => hi (he ▸ hesc)
      exact ih (i + 1) k (by omega) (by omega) hesc
        (fun l hl1 hl2 => hmin l (by omega) hl2)

theorem firstEsc_mono (c : Cx) (fuel : ℕ) :
    ∀ fuel2 i k, fuel ≤ fuel2 → firstEsc c i fuel = some k →
      firstEsc c i fuel2 = some k := by
  induction fuel with
  | zero => intro fuel2 i k _ hsome; exact absurd hsome (by simp [firstEsc])
  | succ f ih =>
    intro fuel2 i k hle hsome
    cases fuel2 with
    | zero => omega
    | succ f2 =>
      show (if 4 < absSq (orbit c (i + 1)) then some i else firstEsc c (i + 1) f2) = some k
      have hs : (if 4 < absSq (orbit c (i + 1)) then some i
          else firstEsc c (i + 1) f) = some k := hsome
      by_cases hi : 4 < absSq (orbit c (i + 1))
      · rw [if_pos hi]; rw [if_pos hi] at hs; exact hs
      · rw [if_neg hi]; rw [if_neg hi] at hs
        exact ih f2 (i + 1) k (by omega) hs

theorem firstEsc_isSome (c : Cx) (fuel : ℕ) :
    ∀ i : ℕ, (∃ k, i ≤ k ∧ k < i + fuel ∧ 4 < absSq (orbit c (k + 1))) →
      ∃ k0, firstEsc c i fuel = some k0 := by
  induction fuel with
  | zero => intro i ⟨k, h1, h2, _⟩; omega
  | succ f ih =>
    intro i ⟨k, h1, h2, hesc⟩
    show ∃ k0, (if 4 < absSq (orbit c (i + 1)) then some i
      else firstEsc c (i + 1) f) = some k0
    by_cases hi : 4 < absSq (orbit c (i + 1))
    · exact ⟨i, by rw [if_pos hi]⟩
    · have hik : i ≠ k := fun he => hi (he ▸ hesc)
      obtain ⟨k0, hk0⟩ := ih (i + 1) ⟨k, by omega, by omega, hesc⟩
      exact ⟨k0, by rw [if_neg hi]; exact hk0⟩

theorem escapeVal_of_no_escape (c : Cx) (m : ℕ)
    (hno : ∀ k, k < m → ¬ (4 < absSq (orbit c (k + 1)))) : escapeVal c m = 0 := by
  show (firstEsc c 0 m).getD 0 = 0
  rw [firstEsc_none c m 0 (fun k _ hk2 => hno k (by omega))]
  rfl

theorem escapeVal_of_first (c : Cx) (m k : ℕ) (hk : k < m)
    (hesc : 4 < absSq (orbit c (k + 1)))
    (hmin : ∀ l, l < k → ¬ (4 < absSq (orbit c (l + 1)))) : escapeVal c m = k := by
  show (firstEsc c 0 m).getD 0 = k
  rw [firstEsc_some c m 0 k (Nat.zero_le k) (by omega) hesc
    (fun l _ hl2 => hmin l hl2)]
  rfl

/-! ## Conjugation -/

theorem cConj_add (a b : Cx) : cConj (cAdd a b) = cAdd (cConj a) (cConj b) := by
  simp only [cConj, cAdd, Cx.mk.injEq]
  constructor
  · trivial
  · ring

theorem cConj_mul (a b : Cx) : cConj (cMul a b) = cMul (cConj a) (cConj b) := by
  simp only [cConj, cMul, Cx.mk.injEq]
  constructor
  · ring
  · ring

theorem absSq_conj (a : Cx) : absSq (cConj a) = absSq a := by
  simp only [absSq, cConj]
  ring

theorem orbit_conj (c : Cx) (k : ℕ) : orbit (cConj c) k = cConj (orbit c k) := by
  induction k with
  | zero =>
    show (⟨0, 0⟩ : Cx) = cConj ⟨0, 0⟩
    simp [cConj]
  | succ n ih =>
    show cAdd (cMul (orbit (cConj c) n) (orbit (cConj c) n)) (cConj c) = _
    rw [ih]
    rw [show cConj (orbit c (Nat.succ n)) =
      cConj (cAdd (cMul (orbit c n) (orbit c n)) c) from rfl]
    rw [cConj_add, cConj_mul]

theorem firstEsc_conj (c : Cx) (fuel : ℕ) :
    ∀ i : ℕ, firstEsc (cConj c) i fuel = firstEsc c i fuel := by
  induction fuel with
  | zero => intro i; rfl
  | succ f ih =>
    intro i
    show (if 4 < absSq (orbit (cConj c) (i + 1)) then some i
        else firstEsc (cConj c) (i + 1) f) =
      (if 4 < absSq (orbit c (i + 1)) then some i else firstEsc c (i + 1) f)
    rw [orbit_conj, absSq_conj, ih (i + 1)]

theorem escapeVal_conj (c : Cx) (m : ℕ) : escapeVal (cConj c) m = escapeVal c m := by
  show (firstEsc (cConj c) 0 m).getD 0 = (firstEsc c 0 m).getD 0
  rw [firstEsc_conj]

/-! ## Linspace lemmas -/

theorem linspace_single (a b : ℚ) (n : ℕ) (hn : n ≤ 1) (i : Fin n) :
    linspace a b n i = a := by
  simp [linspace, hn]

theorem linspace_rev (a b : ℚ) (n : ℕ) (hn : 2 ≤ n) (i : Fin n) :
    linspace a b n (Fin.rev i) = a + b - linspace a b n i := by
  have hn1 : ¬ n ≤ 1 := by omega
  simp only [linspace, if_neg hn1]
  have hval : ((Fin.rev i).val : ℚ) = (n : ℚ) - 1 - (i.val : ℚ) := by
    have h1 : (Fin.rev i).val = n - (i.val + 1) := Fin.val_rev i
    have h2 : i.val + 1 ≤ n := i.isLt
    rw [h1]
    push_cast [Nat.cast_sub h2]
    ring
  rw [hval]
  have hne : (n : ℚ) - 1 ≠ 0 := by
    have : (2 : ℚ) ≤ (n : ℚ) := by exact_mod_cast hn
    intro hzero
    nlinarith
  field_simp
  ring

theorem orbit_zero (k : ℕ) : orbit (Cx.mk 0 0) k = Cx.mk 0 0 := by
  induction k with
  | zero => rfl
  | succ n ih =>
    show cAdd (cMul (orbit (Cx.mk 0 0) n) (orbit (Cx.mk 0 0) n)) (Cx.mk 0 0) = _
    rw [ih]
    simp [cAdd, cMul]

/-! ## The claims -/

/-- C1, counterexample: the grid over `[-1,1] × [-1,1]` at resolution 3×3
samples `c = 0 + 0i` at cell (1,1); that orbit never exceeds magnitude 2
within 5 iterations, yet the output value there is 0, not `max_iter = 5`:
the code initializes `div_time` to zero and never writes saturated cells. -/
theorem interior_point_counterexample :
    sampleGrid (-1) 1 (-1) 1 3 3 (1 : Fin 3) (1 : Fin 3) = Cx.mk 0 0 ∧
    (∀ k, k < 5 → ¬ (4 < absSq (orbit (Cx.mk 0 0) (k + 1)))) ∧
    mandelbrot_set (-1) 1 (-1) 1 3 3 5 (1 : Fin 3) (1 : Fin 3) = 0 ∧
    (0 : ℕ) ≠ 5 := by
  have hs : sampleGrid (-1) 1 (-1) 1 3 3 (1 : Fin 3) (1 : Fin 3) = Cx.mk 0 0 := by
    norm_num [sampleGrid, linspace, Cx.mk.injEq]
  refine ⟨hs, ?_, ?_, by omega⟩
  · intro k _
    rw [orbit_zero]
    norm_num [absSq]
  · rw [mandelbrot_set_apply, hs]
    exact escapeVal_of_no_escape _ _ (fun k _ => by rw [orbit_zero]; norm_num [absSq])

/-- C1, amended: a sample point whose orbit never exceeds magnitude 2 within
`max_iter` iterations has final output value 0 (the initial value of
`div_time`), not `max_iter`; in particular the cell sampling `c = 0 + 0i`
has output value 0 for every `max_iter`. -/
theorem never_escaping_point_records_zero (xmin xmax ymin ymax : ℚ)
    (w h m : ℕ) (r : Fin h) (j : Fin w)
    (hno : ∀ k, k < m →
      ¬ (4 < absSq (orbit (sampleGrid xmin xmax ymin ymax w h r j) (k + 1)))) :
    mandelbrot_set xmin xmax ymin ymax w h m r j = 0 := by
  rw [mandelbrot_set_apply]
  exact escapeVal_of_no_escape _ _ hno

/-- Witness for C1's amended theorem at the 3×3 grid whose center samples
`c = 0 + 0i` with `max_iter = 5`. -/
theorem never_escaping_point_records_zero_witness :
    mandelbrot_set (-1) 1 (-1) 1 3 3 5 (1 : Fin 3) (1 : Fin 3) = 0 := by
  refine never_escaping_point_records_zero (-1) 1 (-1) 1 3 3 5 (1 : Fin 3) (1 : Fin 3) ?_
  intro k _
  have hs : sampleGrid (-1) 1 (-1) 1 3 3 (1 : Fin 3) (1 : Fin 3) = Cx.mk 0 0 := by
    norm_num [sampleGrid, linspace, Cx.mk.injEq]
  rw [hs, orbit_zero]
  norm_num [absSq]

/-- C2, counterexample: with `x_min = 1 ≥ x_max = 0` (a degenerate region)
the function does not reject the call: it silently returns the full 1×2
grid, here all zeros.  There is no validation and no `InvalidRegion` error
anywhere in the code. -/
theorem region_validation_counterexample :
    ((0 : ℚ) ≤ 1) ∧
    mandelbrot_set 1 0 0 1 2 1 1 (0 : Fin 1) (0 : Fin 2) = 0 ∧
    mandelbrot_set 1 0 0 1 2 1 1 (0 : Fin 1) (1 : Fin 2) = 0 := by
  refine ⟨by norm_num, ?_, ?_⟩
  · rw [mandelbrot_set_apply]
    have hs : sampleGrid 1 0 0 1 2 1 (0 : Fin 1) (0 : Fin 2) = Cx.mk 1 0 := by
      norm_num [sampleGrid, linspace, Cx.mk.injEq]
    rw [hs]
    exact escapeVal_of_no_escape _ _ (by norm_num [absSq, orbit, cMul, cAdd])
  · rw [mandelbrot_set_apply]
    have hs : sampleGrid 1 0 0 1 2 1 (0 : Fin 1) (1 : Fin 2) = Cx.mk 0 0 := by
      norm_num [sampleGrid, linspace, Cx.mk.injEq]
    rw [hs]
    exact escapeVal_of_no_escape _ _ (fun k _ => by rw [orbit_zero]; norm_num [absSq])

/-- C2, amended: degenerate inputs (`width = 0`, `height = 0`,
`x_min ≥ x_max`, or `y_min ≥ y_max`) are not rejected: the builder performs
no validation, and the full computation proceeds on the degenerate bounds
exactly as on any other input, silently returning its grid (empty when
`width = 0` or `height = 0`). -/
theorem degenerate_input_not_rejected (xmin xmax ymin ymax : ℚ)
    (w h m : ℕ)
    (hdeg : xmax ≤ xmin ∨ ymax ≤ ymin ∨ w = 0 ∨ h = 0)
    (r : Fin h) (j : Fin w) :
    mandelbrot_set xmin xmax ymin ymax w h m r j =
      escapeVal (sampleGrid xmin xmax ymin ymax w h r j) m :=
  mandelbrot_set_apply xmin xmax ymin ymax w h m r j

/-- Witness for C2's amended theorem at the degenerate region
`x_min = 1 ≥ x_max = 0`. -/
theorem degenerate_input_not_rejected_witness :
    mandelbrot_set 1 0 0 1 2 1 1 (0 : Fin 1) (0 : Fin 2) =
      escapeVal (sampleGrid 1 0 0 1 2 1 (0 : Fin 1) (0 : Fin 2)) 1 :=
  degenerate_input_not_rejected 1 0 0 1 2 1 1 (Or.inl (by norm_num))
    (0 : Fin 1) (0 : Fin 2)

/-- C3, counterexample: with `max_iter = 0` the evaluator does not fail:
the loop body never runs and the full 2×2 grid of zeros is silently
returned.  There is no `InvalidIterationBound` error in the code. -/
theorem iteration_bound_validation_counterexample :
    mandelbrot_set (-2) 1 (-1) 1 2 2 0 (0 : Fin 2) (0 : Fin 2) = 0 ∧
    mandelbrot_set (-2) 1 (-1) 1 2 2 0 (0 : Fin 2) (1 : Fin 2) = 0 ∧
    mandelbrot_set (-2) 1 (-1) 1 2 2 0 (1 : Fin 2) (0 : Fin 2) = 0 ∧
    mandelbrot_set (-2) 1 (-1) 1 2 2 0 (1 : Fin 2) (1 : Fin 2) = 0 :=
  ⟨rfl, rfl, rfl, rfl⟩

/-- C3, amended: for `max_iter = 0` (the non-positive cap a natural-number
cap can express) the evaluator performs no validation and silently returns
the all-zero `height × width` grid: the loop body never executes and
`div_time` keeps its initial zeros. -/
theorem max_iter_zero_returns_zero_grid (xmin xmax ymin ymax : ℚ)
    (w h : ℕ) (r : Fin h) (j : Fin w) :
    mandelbrot_set xmin xmax ymin ymax w h 0 r j = 0 := rfl

/-- C4: once a cell's `mask` is false, one loop body leaves it untouched
(`z`, `div_time` and `mask` included), and so does any number of further
iterations, with or without the early exit: the recurrence update and the
escape recording apply only to cells whose flag is true. -/
theorem inactive_cell_frozen {w h : ℕ} (c : Fin h → Fin w → Cx)
    (s : Fin h → Fin w → Cell) (r : Fin h) (j : Fin w)
    (hm : (s r j).mask = false) :
    (∀ i, gridStep c i s r j = s r j) ∧
    (∀ i fuel, runNB c i fuel s r j = s r j ∧ run c i fuel s r j = s r j) := by
  constructor
  · intro i
    exact cellStep_inactive (c r j) i (s r j) hm
  · intro i fuel
    constructor
    · rw [runNB_apply]
      exact cellRun_inactive (c r j) fuel i (s r j) hm
    · rw [run_eq_runNB, runNB_apply]
      exact cellRun_inactive (c r j) fuel i (s r j) hm

/-- Witness for C4 on a concrete 1×1 grid whose single cell is inactive
with `z = 2 + 3i` and recorded value 7: one step and two further
iterations all leave it unchanged. -/
theorem inactive_cell_frozen_witness :
    gridStep (fun _ _ => Cx.mk 1 1) 0
        (fun _ _ => Cell.mk (Cx.mk 2 3) 7 false) (0 : Fin 1) (0 : Fin 1) =
      Cell.mk (Cx.mk 2 3) 7 false ∧
    runNB (fun _ _ => Cx.mk 1 1) 0 2
        (fun _ _ => Cell.mk (Cx.mk 2 3) 7 false) (0 : Fin 1) (0 : Fin 1) =
      Cell.mk (Cx.mk 2 3) 7 false ∧
    run (fun _ _ => Cx.mk 1 1) 0 2
        (fun _ _ => Cell.mk (Cx.mk 2 3) 7 false) (0 : Fin 1) (0 : Fin 1) =
      Cell.mk (Cx.mk 2 3) 7 false := by
  have H := inactive_cell_frozen (fun _ _ => Cx.mk 1 1)
    (fun _ _ => Cell.mk (Cx.mk 2 3) 7 false) (0 : Fin 1) (0 : Fin 1) rfl
  exact ⟨H.1 0, (H.2 0 2).1, (H.2 0 2).2⟩

/-- C5: a cell whose orbit escapes records the loop index `k` of the
update step whose post-update magnitude first exceeds 2, counting the
first update as index 0. -/
theorem escape_index_is_first_excess (xmin xmax ymin ymax : ℚ)
    (w h m k : ℕ) (r : Fin h) (j : Fin w) (c : Cx)
    (hc : sampleGrid xmin xmax ymin ymax w h r j = c)
    (hk : k < m)
    (hesc : 4 < absSq (orbit c (k + 1)))
    (hmin : ∀ l, l < k → ¬ (4 < absSq (orbit c (l + 1)))) :
    mandelbrot_set xmin xmax ymin ymax w h m r j = k := by
  rw [mandelbrot_set_apply, hc]
  exact escapeVal_of_first c m k hk hesc hmin

/-- Witness for C5 at `c = 3 + 0i` (sampled by the grid over
`[3,4] × [0,1]` at cell (0,0)): the first update gives `|3| > 2`, so the
recorded value is 0, for cap 1. -/
theorem escape_index_is_first_excess_witness :
    mandelbrot_set 3 4 0 1 2 1 1 (0 : Fin 1) (0 : Fin 2) = 0 := by
  refine escape_index_is_first_excess 3 4 0 1 2 1 1 0 (0 : Fin 1) (0 : Fin 2)
    (Cx.mk 3 0) ?_ (by omega) ?_ ?_
  · norm_num [sampleGrid, linspace, Cx.mk.injEq]
  · norm_num [absSq, orbit, cMul, cAdd]
  · intro l hl
    omega

/-- C6: the early exit `if not mask.any(): break` is output-preserving:
the evaluator with the break returns the same grid as the evaluator that
always runs all `max_iter` iterations. -/
theorem early_exit_preserves_output (xmin xmax ymin ymax : ℚ)
    (w h m : ℕ) :
    mandelbrot_set xmin xmax ymin ymax w h m =
      mandelbrot_set_noBreak xmin xmax ymin ymax w h m := by
  funext r j
  show (run (sampleGrid xmin xmax ymin ymax w h) 0 m
      (fun _ _ => initCell) r j).div_time = _
  rw [run_eq_runNB]
  rfl

/-- C7: the sample at row `r`, column `j` has real part
`x_min + j*(x_max - x_min)/(width - 1)` and imaginary part
`y_min + r*(y_max - y_min)/(height - 1)` whenever the axis has at least
two samples, and a single-sample axis lies exactly at its lower bound. -/
theorem sample_grid_linear_interpolation (xmin xmax ymin ymax : ℚ)
    (w h : ℕ) (r : Fin h) (j : Fin w) :
    (2 ≤ w → (sampleGrid xmin xmax ymin ymax w h r j).re =
      xmin + (j.val : ℚ) * (xmax - xmin) / ((w : ℚ) - 1)) ∧
    (w = 1 → (sampleGrid xmin xmax ymin ymax w h r j).re = xmin) ∧
    (2 ≤ h → (sampleGrid xmin xmax ymin ymax w h r j).im =
      ymin + (r.val : ℚ) * (ymax - ymin) / ((h : ℚ) - 1)) ∧
    (h = 1 → (sampleGrid xmin xmax ymin ymax w h r j).im = ymin) := by
  refine ⟨fun hw => ?_, fun hw => ?_, fun hh => ?_, fun hh => ?_⟩
  · simp [sampleGrid, linspace, show ¬ w ≤ 1 by omega]
  · simp [sampleGrid, linspace, show w ≤ 1 by omega]
  · simp [sampleGrid, linspace, show ¬ h ≤ 1 by omega]
  · simp [sampleGrid, linspace, show h ≤ 1 by omega]

/-- Witness for C7 on the grid over `[0,1] × [5,9]` with width 3 and
height 1: column 2 of the (only) row has real part given by the
interpolation formula and imaginary part exactly `y_min = 5`. -/
theorem sample_grid_linear_interpolation_witness :
    (sampleGrid 0 1 5 9 3 1 (0 : Fin 1) (2 : Fin 3)).re =
      0 + (((2 : Fin 3).val : ℚ)) * (1 - 0) / ((3 : ℚ) - 1) ∧
    (sampleGrid 0 1 5 9 3 1 (0 : Fin 1) (2 : Fin 3)).im = 5 := by
  have H := sample_grid_linear_interpolation 0 1 5 9 3 1 (0 : Fin 1) (2 : Fin 3)
  exact ⟨H.1 (by omega), H.2.2.2 rfl⟩

/-- C8, counterexample: over the region `[1,2] × [0,1]` at resolution 1×1
the single cell samples `c = 1 + 0i`.  With `max_iter_old = 1` its output
is 0, which is below `max_iter_old` (so the claim calls it "already
escaped" and requires the value to be preserved), yet with
`max_iter_new = 3` its output is 2: the value 0 came from saturation, not
escape, because the code records 0 (the array's initial value), never
`max_iter`, for saturated cells. -/
theorem refinement_monotonicity_counterexample :
    mandelbrot_set 1 2 0 1 1 1 1 (0 : Fin 1) (0 : Fin 1) = 0 ∧
    (0 < 1) ∧ (1 < 3) ∧
    mandelbrot_set 1 2 0 1 1 1 3 (0 : Fin 1) (0 : Fin 1) = 2 := by
  have hs : sampleGrid 1 2 0 1 1 1 (0 : Fin 1) (0 : Fin 1) = Cx.mk 1 0 := by
    norm_num [sampleGrid, linspace, Cx.mk.injEq]
  refine ⟨?_, by omega, by omega, ?_⟩
  · rw [mandelbrot_set_apply, hs]
    exact escapeVal_of_no_escape _ _ (by norm_num [absSq, orbit, cMul, cAdd])
  · rw [mandelbrot_set_apply, hs]
    norm_num [escapeVal, firstEsc, absSq, orbit, cMul, cAdd]

/-- C8, amended: under `max_iter_new > max_iter_old ≥ 1`, every cell whose
orbit escapes within `max_iter_old` update steps has an identical recorded
value in both runs; a cell whose orbit does not escape within
`max_iter_old` steps has old output 0 (not `max_iter_old`), so an old
value below `max_iter_old` does not indicate escape and such a cell's
value may grow in the refined run. -/
theorem refinement_monotonicity_amended (xmin xmax ymin ymax : ℚ)
    (w h mo mn : ℕ) (r : Fin h) (j : Fin w) (c : Cx)
    (hc : sampleGrid xmin xmax ymin ymax w h r j = c)
    (h1 : 1 ≤ mo) (h2 : mo < mn) :
    ((∃ k, k < mo ∧ 4 < absSq (orbit c (k + 1))) →
      mandelbrot_set xmin xmax ymin ymax w h mo r j =
        mandelbrot_set xmin xmax ymin ymax w h mn r j) ∧
    ((∀ k, k < mo → ¬ (4 < absSq (orbit c (k + 1)))) →
      mandelbrot_set xmin xmax ymin ymax w h mo r j = 0) := by
  constructor
  · rintro ⟨k, hk, hesc⟩
    rw [mandelbrot_set_apply, mandelbrot_set_apply, hc]
    obtain ⟨k0, hk0⟩ := firstEsc_isSome c mo 0 ⟨k, Nat.zero_le k, by omega, hesc⟩
    have hk0n : firstEsc c 0 mn = some k0 :=
      firstEsc_mono c mo mn 0 k0 (by omega) hk0
    show (firstEsc c 0 mo).getD 0 = (firstEsc c 0 mn).getD 0
    rw [hk0, hk0n]
  · intro hno
    rw [mandelbrot_set_apply, hc]
    exact escapeVal_of_no_escape c mo hno

/-- Witness for C8's amended theorem: the cell sampling `c = 3 + 0i`
escapes at step 0 within cap 1, so its value is unchanged when the cap is
raised to 2. -/
theorem refinement_monotonicity_amended_witness :
    mandelbrot_set 3 4 0 1 2 1 1 (0 : Fin 1) (0 : Fin 2) =
      mandelbrot_set 3 4 0 1 2 1 2 (0 : Fin 1) (0 : Fin 2) := by
  refine (refinement_monotonicity_amended 3 4 0 1 2 1 1 2 (0 : Fin 1) (0 : Fin 2)
    (Cx.mk 3 0) ?_ (by omega) (by omega)).1 ⟨0, by omega, ?_⟩
  · norm_num [sampleGrid, linspace, Cx.mk.injEq]
  · norm_num [absSq, orbit, cMul, cAdd]

/-- C9: when the vertical bounds satisfy `y_min = -y_max`, the output grid
is invariant under reversing the row order: cell `(r, j)` and its mirror
`(height - 1 - r, j)` hold equal values, because the mirror row samples
the complex conjugate and the recurrence commutes with conjugation. -/
theorem conjugate_row_symmetry (xmin xmax ymin ymax : ℚ) (w h m : ℕ)
    (hsym : ymin = -ymax) (r : Fin h) (j : Fin w) :
    mandelbrot_set xmin xmax ymin ymax w h m r j =
      mandelbrot_set xmin xmax ymin ymax w h m (Fin.rev r) j := by
  rw [mandelbrot_set_apply, mandelbrot_set_apply]
  rcases le_or_lt h 1 with hh | hh
  · have hrev : Fin.rev r = r := by
      apply Fin.ext
      rw [Fin.val_rev]
      have := r.isLt
      omega
    rw [hrev]
  · have hs : sampleGrid xmin xmax ymin ymax w h (Fin.rev r) j =
        cConj (sampleGrid xmin xmax ymin ymax w h r j) := by
      show (⟨linspace xmin xmax w j, linspace ymin ymax h (Fin.rev r)⟩ : Cx) =
        cConj ⟨linspace xmin xmax w j, linspace ymin ymax h r⟩
      simp only [cConj, Cx.mk.injEq]
      refine ⟨trivial, ?_⟩
      rw [linspace_rev ymin ymax h hh r, hsym]
      ring
    rw [hs, escapeVal_conj]

/-- Witness for C9 on the grid over `[0,1] × [-1,1]` with height 2: the
two rows of the single column hold equal values. -/
theorem conjugate_row_symmetry_witness :
    mandelbrot_set 0 1 (-1) 1 1 2 1 (0 : Fin 2) (0 : Fin 1) =
      mandelbrot_set 0 1 (-1) 1 1 2 1 (Fin.rev (0 : Fin 2)) (0 : Fin 1) :=
  conjugate_row_symmetry 0 1 (-1) 1 1 2 1 (by norm_num) (0 : Fin 2) (0 : Fin 1)

/-- C10: the returned grid has `height` rows and `width` columns (its type
is `Fin height → Fin width → ℕ`), and cell `(r, j)` holds the escape value
of the point whose real part is the `j`-th x-axis sample and whose
imaginary part is the `r`-th y-axis sample. -/
theorem grid_orientation (xmin xmax ymin ymax : ℚ) (w h m : ℕ)
    (r : Fin h) (j : Fin w) :
    mandelbrot_set xmin xmax ymin ymax w h m r j =
      escapeVal (Cx.mk (linspace xmin xmax w j) (linspace ymin ymax h r)) m :=
  mandelbrot_set_apply xmin xmax ymin ymax w h m r j
